import Mathlib

/-!
Verification of the IPDR analysis engine (relevance scoring, noise reduction,
filter pipeline, relationship-graph builder, anomaly rule R2, text parsing,
file loading) against its natural-language specification.

The Python sources are shallowly embedded:
* pandas DataFrames become a `Frame`: a list of canonical records (`Rec`)
  plus column-presence flags (`Cols`).  A missing column and a NaN cell both
  render a field unusable for pandas operations; the flags model column
  presence (`'duration' in df.columns`) and `Option` fields model per-cell
  NaN (`pd.notna`).
* Python floats become `ℚ` (the scores and thresholds in the source are
  small decimal constants whose float arithmetic is exact at the compared
  magnitudes).
* Python exceptions become `Except Unit`; a `try/except` block becomes a
  `match` on the result.
* In-place mutation of the caller's DataFrame is made explicit: functions
  that mutate an argument return the new value of that argument.
-/

namespace IPDR

/-- Structured date-time value produced by timestamp coercion
(`pd.to_datetime`): the analysis code only reads `dt.hour` and
`dt.weekday()`; `serial` orders/distinguishes timestamps. -/
structure Timestamp where
  hour : Nat
  weekday : Nat
  serial : Nat
deriving DecidableEq

/-- Canonical communication record (one DataFrame row).  `none` models a
NaN cell.  `score` is the `relevance_score` column value. -/
structure Rec where
  a_party : String
  b_party : String
  timestamp : Option Timestamp
  duration : Option ℚ
  service_type : Option String
  score : Option ℚ
deriving DecidableEq

/-- Column-presence flags of a frame (`a_party`/`b_party` are always
present in the engine's canonical frames). -/
structure Cols where
  hasTs : Bool
  hasDur : Bool
  hasSvc : Bool
  hasScore : Bool
deriving DecidableEq

/-- A pandas DataFrame of canonical records. -/
structure Frame where
  cols : Cols
  rows : List Rec
deriving DecidableEq

/-- Caller-supplied geographic context
(`context['geographic_context']`). -/
structure GeoCtx where
  distance_km : Option ℚ
  cross_border : Bool
  international : Bool
deriving DecidableEq

/-- Caller-supplied context map; a `none` field models a missing key.  A
context with all fields `none` also covers the falsy empty dict. -/
structure Ctx where
  entity_frequency : Option ℤ
  geographic_context : Option GeoCtx
  risk_score : Option ℚ
deriving DecidableEq

/-! ## Relevance scorer (`AdvancedFilteringSystem.calculate_relevance_score`) -/

/-- `AdvancedFilteringSystem._load_relevance_weights`. -/
structure Weights where
  duration : ℚ
  frequency : ℚ
  timing : ℚ
  geographic : ℚ
  service_type : ℚ
  risk_score : ℚ

/-- The default relevance weights from `_load_relevance_weights`. -/
def relevance_weights : Weights :=
  { duration := 15/100, frequency := 25/100, timing := 20/100,
    geographic := 15/100, service_type := 10/100, risk_score := 15/100 }

/-- `_calculate_duration_score`. -/
def duration_score (d : ℚ) : ℚ :=
  if d < 1 then 3/10
  else if d < 30 then 6/10
  else if d < 300 then 1
  else if d < 1800 then 8/10
  else 4/10

/-- `_calculate_frequency_score`. -/
def frequency_score (f : ℤ) : ℚ :=
  if f = 1 then 5/10
  else if f ≤ 5 then 7/10
  else if f ≤ 20 then 1
  else if f ≤ 100 then 8/10
  else 6/10

/-- `_calculate_timing_score` on an already-structured timestamp (the
`str` branch re-parses through `pd.to_datetime`; frames in the engine carry
coerced timestamps). -/
def timing_score (t : Timestamp) : ℚ :=
  if 22 ≤ t.hour ∨ t.hour ≤ 6 then 1
  else if 5 ≤ t.weekday then 8/10
  else if 9 ≤ t.hour ∧ t.hour ≤ 17 then 6/10
  else 7/10

/-- `_calculate_geographic_score`. -/
def geographic_score (g : GeoCtx) : ℚ :=
  let s : ℚ := 5/10
  let s := match g.distance_km with
    | some d => if 1000 < d then s + 3/10 else if 100 < d then s + 2/10 else s + 1/10
    | none => s
  let s := if g.cross_border then s + 2/10 else s
  let s := if g.international then s + 3/10 else s
  min s 1

/-- `_calculate_service_score`; the dict lookup with default 0.5 after
upper-casing. -/
def service_score (s : String) : ℚ :=
  let u := s.toUpper
  if u = "VOICE" then 1
  else if u = "SMS" then 9/10
  else if u = "MMS" then 8/10
  else if u = "DATA" then 6/10
  else if u = "ROAMING" then 7/10
  else 5/10

/-- `_calculate_risk_score_relevance`. -/
def risk_score_relevance (r : ℚ) : ℚ :=
  if 80 ≤ r then 1
  else if 60 ≤ r then 8/10
  else if 40 ≤ r then 6/10
  else if 20 ≤ r then 4/10
  else 2/10

/-- The accumulated weighted sum inside `calculate_relevance_score`,
before the final clamp.  Each contribution is guarded exactly as in the
source: a row field contributes when its column exists and the cell is not
NaN, a context feature when the context is present (truthy) and carries
the key. -/
def raw_relevance_score (cols : Cols) (r : Rec) (ctx : Option Ctx) : ℚ :=
  let w := relevance_weights
  let s : ℚ := 0
  let s := match cols.hasDur, r.duration with
    | true, some d => s + duration_score d * w.duration
    | _, _ => s
  let s := match ctx with
    | some c => match c.entity_frequency with
      | some f => s + frequency_score f * w.frequency
      | none => s
    | none => s
  let s := match cols.hasTs, r.timestamp with
    | true, some t => s + timing_score t * w.timing
    | _, _ => s
  let s := match ctx with
    | some c => match c.geographic_context with
      | some g => s + geographic_score g * w.geographic
      | none => s
    | none => s
  let s := match cols.hasSvc, r.service_type with
    | true, some v => s + service_score v * w.service_type
    | _, _ => s
  let s := match ctx with
    | some c => match c.risk_score with
      | some q => s + risk_score_relevance q * w.risk_score
      | none => s
    | none => s
  s

/-- `calculate_relevance_score`: the weighted sum clamped by
`min(max(score, 0.0), 1.0)`.  (The surrounding `except` returns 0.0; no
operation of the embedded body can fail.) -/
def calculate_relevance_score (cols : Cols) (r : Rec) (ctx : Option Ctx) : ℚ :=
  min (max (raw_relevance_score cols r ctx) 0) 1

/-! ## Noise reducer (`AdvancedFilteringSystem._apply_noise_reduction`) -/

/-- Deduplication key of `_remove_duplicates`: the key columns among
`['a_party','b_party','timestamp','duration','service_type']` that exist
in the frame (`a_party`/`b_party` always do). -/
def dedupKey (c : Cols) (r : Rec) :
    String × String × Option (Option Timestamp) × Option (Option ℚ) × Option (Option String) :=
  (r.a_party, r.b_party,
   if c.hasTs then some r.timestamp else none,
   if c.hasDur then some r.duration else none,
   if c.hasSvc then some r.service_type else none)

/-- Keep-first deduplication (`df.drop_duplicates(subset=key, keep='first')`);
`seen` accumulates keys of rows already kept. -/
def dropDupsAux (c : Cols)
    (seen : List (String × String × Option (Option Timestamp) × Option (Option ℚ) × Option (Option String))) :
    List Rec → List Rec
  | [] => []
  | r :: rs =>
    if dedupKey c r ∈ seen then dropDupsAux c seen rs
    else r :: dropDupsAux c (dedupKey c r :: seen) rs

/-- `_remove_duplicates` (the similarity threshold parameter is unused by
the source beyond selecting key columns). -/
def remove_duplicates (c : Cols) (rows : List Rec) : List Rec :=
  dropDupsAux c [] rows

/-- Duration bound check of the noise reducer: default config thresholds
1s and 3600s; a NaN duration compares false in pandas and is dropped. -/
def durOK (r : Rec) : Bool :=
  match r.duration with
  | some d => decide (1 ≤ d) && decide (d ≤ 3600)
  | none => false

/-- Default `valid_service_types` of `_load_noise_reduction_config`. -/
def valid_service_types : List String := ["VOICE", "SMS", "DATA", "MMS"]

/-- Service allow-list check (`df['service_type'].isin(...)`; NaN is not
in the list and is dropped). -/
def svcOK (r : Rec) : Bool :=
  match r.service_type with
  | some s => valid_service_types.contains s
  | none => false

/-- Default `noise_patterns` of `_load_noise_reduction_config`. -/
def noise_patterns : List String :=
  ["test", "demo", "sample", "example", "0000000000", "1111111111", "9999999999"]

/-- Substring search on character lists. -/
def containsChars (pat : List Char) : List Char → Bool
  | [] => pat.isEmpty
  | c :: t => pat.isPrefixOf (c :: t) || containsChars pat t

/-- Case-insensitive substring containment, modelling
`str.contains(pattern, case=False)` for the literal noise patterns. -/
def containsCI (s pat : String) : Bool :=
  containsChars pat.toLower.toList s.toLower.toList

/-- Sequential filtering (`df_clean = df_clean[~mask]` inside a loop):
each predicate in turn narrows the current list. -/
def chainFilter : List (Rec → Bool) → List Rec → List Rec
  | [], l => l
  | p :: ps, l => chainFilter ps (l.filter p)

/-- The loop body order of `_remove_noise_patterns`: for each pattern,
first the `a_party` mask then the `b_party` mask. -/
def noisePreds : List (Rec → Bool) :=
  noise_patterns.flatMap (fun pat =>
    [fun r => !containsCI r.a_party pat, fun r => !containsCI r.b_party pat])

/-- `_remove_noise_patterns`. -/
def remove_noise_patterns (rows : List Rec) : List Rec :=
  chainFilter noisePreds rows

/-- The alternatives of the private-IP regex
`^(10\.|172\.(1[6-9]|2[0-9]|3[0-1])\.|192\.168\.)` as literal string
prefixes. -/
def private_ip_pres : List String :=
  ["10.", "192.168.",
   "172.16.", "172.17.", "172.18.", "172.19.", "172.20.", "172.21.",
   "172.22.", "172.23.", "172.24.", "172.25.", "172.26.", "172.27.",
   "172.28.", "172.29.", "172.30.", "172.31."]

/-- `str.match` against the private-IP regex. -/
def isPrivateIp (s : String) : Bool :=
  private_ip_pres.any (fun p => p.isPrefixOf s)

/-- Row kept by `_apply_geographic_filters` (config default
`exclude_private_ips = True`; `b_party` always a column here). -/
def geoOK (r : Rec) : Bool := !isPrivateIp r.b_party

/-- `_apply_geographic_filters`. -/
def apply_geographic_filters (rows : List Rec) : List Rec :=
  rows.filter geoOK

/-- `_apply_noise_reduction`: duplicates, duration bounds, service types,
noise patterns, geographic filter, in source order; stages guarded by
column presence exactly as in the source.  Column flags are unchanged. -/
def apply_noise_reduction (f : Frame) : Frame :=
  let rows := remove_duplicates f.cols f.rows
  let rows := if f.cols.hasDur then rows.filter durOK else rows
  let rows := if f.cols.hasSvc then rows.filter svcOK else rows
  let rows := remove_noise_patterns rows
  let rows := apply_geographic_filters rows
  { cols := f.cols, rows := rows }

/-! ## Sorting (`df.sort_values('relevance_score', ascending=False)`)

pandas `nargsort` computes an ascending argsort of the key column with the
default numpy quicksort — which is a stable binary insertion sort for
arrays of fewer than 16 elements — and then reverses the whole indexer
when `ascending=False`.  The model is the reversal of a stable ascending
insertion sort; it realises the exact pandas row order for frames of at
most 15 rows and an ascending-sorted permutation in general. -/

/-- Sort key: the `relevance_score` cell (always populated when the
pipeline sorts). -/
def sortKey (r : Rec) : ℚ := r.score.getD 0

/-- Stable ascending insertion. -/
def insertAsc (key : Rec → ℚ) (r : Rec) : List Rec → List Rec
  | [] => [r]
  | x :: xs => if key r ≤ key x then r :: x :: xs else x :: insertAsc key r xs

/-- Stable ascending insertion sort. -/
def sortAscBy (key : Rec → ℚ) : List Rec → List Rec
  | [] => []
  | r :: rs => insertAsc key r (sortAscBy key rs)

/-- `sort_values(key, ascending=False)` as pandas realises it: ascending
stable argsort, then wholesale reversal of the indexer. -/
def sort_values_desc (key : Rec → ℚ) (rows : List Rec) : List Rec :=
  (sortAscBy key rows).reverse

/-! ## Filter pipeline (`AdvancedFilteringSystem.apply_filters`) -/

/-- `FilterType` enum. -/
inductive FilterType where
  | time_based
  | frequency_based
  | pattern_based
  | risk_based
  | custom
deriving DecidableEq

/-- Scalar Python values appearing in criteria dicts and cells. -/
inductive Val where
  | int (i : ℤ)
  | str (s : String)
  | bool (b : Bool)
deriving DecidableEq

/-- Shape of one criteria entry: a scalar, a `{min,max}` dict, a
`{values: [...]}` dict, or some other dict (which the custom filter
ignores). -/
inductive Cond where
  | scalar (v : Val)
  | minmax (lo hi : Val)
  | values (vs : List Val)
  | other
deriving DecidableEq

/-- `FilterCriteria` dataclass (priority, weight and description fields
are never consulted by the filtering code and are omitted). -/
structure FilterCriteria where
  name : String
  filter_type : FilterType
  criteria : List (String × Cond)
  is_active : Bool
deriving DecidableEq

/-- Numeric coercion used where the source does arithmetic or an ordered
comparison with a criteria value (`x / 100.0`, `counts >= x`): Python ints
and bools are numbers; strings, dicts and lists raise `TypeError`. -/
def asNum : Cond → Except Unit ℚ
  | .scalar (.int i) => .ok (i : ℚ)
  | .scalar (.bool b) => .ok (if b then 1 else 0)
  | _ => .error ()

/-- Python truthiness of `criteria.get(k, False)`. -/
def truthy : Option Cond → Bool
  | none => false
  | some (.scalar (.int i)) => i != 0
  | some (.scalar (.str s)) => s != ""
  | some (.scalar (.bool b)) => b
  | some (.minmax _ _) => true
  | some (.values _) => true
  | some .other => true

/-- `_apply_risk_based_filter`: when `min_risk_score` is configured and
the `relevance_score` column exists, keep rows whose score is at least
`min_risk_score / 100`; otherwise pass everything through.  A NaN score
compares false and is removed. -/
def apply_risk_based_filter (df : Frame) (fl : FilterCriteria) :
    Except Unit (Frame × List Rec) :=
  match fl.criteria.lookup "min_risk_score", df.cols.hasScore with
  | some cond, true => do
    let m ← asNum cond
    let keep := fun r => match r.score with
      | some s => decide (m / 100 ≤ s)
      | none => false
    .ok ({ df with rows := df.rows.filter keep }, df.rows.filter (fun r => !keep r))
  | _, _ => .ok (df, [])

/-- The `is_burner_pattern` helper: length at least 10 and at most 3
distinct characters. -/
def is_burner_pattern (s : String) : Bool :=
  decide (10 ≤ s.length) && decide (s.toList.eraseDups.length ≤ 3)

/-- `_apply_pattern_based_filter`: when `burner_phone_patterns` is truthy,
remove rows whose `b_party` matches the burner heuristic. -/
def apply_pattern_based_filter (df : Frame) (fl : FilterCriteria) :
    Except Unit (Frame × List Rec) :=
  if truthy (fl.criteria.lookup "burner_phone_patterns") then
    .ok ({ df with rows := df.rows.filter (fun r => !is_burner_pattern r.b_party) },
         df.rows.filter (fun r => is_burner_pattern r.b_party))
  else .ok (df, [])

/-- Occurrences of an `a_party` value within the current kept set
(`value_counts`). -/
def countA (rows : List Rec) (a : String) : Nat :=
  (rows.filter (fun r => r.a_party == a)).length

/-- `_apply_frequency_based_filter`: when `min_connections` is configured,
keep rows whose `a_party` occurs at least that often in the current set. -/
def apply_frequency_based_filter (df : Frame) (fl : FilterCriteria) :
    Except Unit (Frame × List Rec) :=
  match fl.criteria.lookup "min_connections" with
  | some cond => do
    let m ← asNum cond
    let keep := fun r => decide (m ≤ (countA df.rows r.a_party : ℚ))
    .ok ({ df with rows := df.rows.filter keep }, df.rows.filter (fun r => !keep r))
  | none => .ok (df, [])

/-- `_apply_time_based_filter`: when the frame has timestamps and
`peak_hours` is truthy, keep rows with hour in `[9, 17]`; a missing
timestamp (NaT) compares false and is removed. -/
def apply_time_based_filter (df : Frame) (fl : FilterCriteria) :
    Except Unit (Frame × List Rec) :=
  if df.cols.hasTs then
    if truthy (fl.criteria.lookup "peak_hours") then
      let keep := fun r => match r.timestamp with
        | some t => decide (9 ≤ t.hour) && decide (t.hour ≤ 17)
        | none => false
      .ok ({ df with rows := df.rows.filter keep }, df.rows.filter (fun r => !keep r))
    else .ok (df, [])
  else .ok (df, [])

/-- Cell value as seen by the custom filter's column comparisons. -/
inductive CV where
  | num (q : ℚ)
  | strv (s : String)
  | ts (t : Timestamp)
  | missing
deriving DecidableEq

/-- `column in df.columns` for the canonical frames. -/
def colPresent (c : Cols) (col : String) : Bool :=
  col == "a_party" || col == "b_party" ||
  (col == "timestamp" && c.hasTs) || (col == "duration" && c.hasDur) ||
  (col == "service_type" && c.hasSvc) || (col == "relevance_score" && c.hasScore)

/-- `df[column]` cell of one row. -/
def getCell (r : Rec) (col : String) : CV :=
  if col == "a_party" then .strv r.a_party
  else if col == "b_party" then .strv r.b_party
  else if col == "timestamp" then
    match r.timestamp with | some t => .ts t | none => .missing
  else if col == "duration" then
    match r.duration with | some d => .num d | none => .missing
  else if col == "service_type" then
    match r.service_type with | some s => .strv s | none => .missing
  else if col == "relevance_score" then
    match r.score with | some q => .num q | none => .missing
  else .missing

/-- Lexicographic string comparison (Python `<=` on `str`). -/
def strLE (a b : String) : Bool := compare a b != Ordering.gt

/-- Elementwise `df[column] >= v`: number-number and string-string compare;
NaN compares false; mixing types (including datetime cells, whose
string-bound coercion is not modelled) raises `TypeError`. -/
def cvGE : CV → Val → Except Unit Bool
  | .num q, .int i => .ok (decide ((i : ℚ) ≤ q))
  | .num q, .bool b => .ok (decide (((if b then (1 : ℚ) else 0)) ≤ q))
  | .strv s, .str t => .ok (strLE t s)
  | .missing, _ => .ok false
  | _, _ => .error ()

/-- Elementwise `df[column] <= v`. -/
def cvLE : CV → Val → Except Unit Bool
  | .num q, .int i => .ok (decide (q ≤ (i : ℚ)))
  | .num q, .bool b => .ok (decide (q ≤ (if b then (1 : ℚ) else 0)))
  | .strv s, .str t => .ok (strLE s t)
  | .missing, _ => .ok false
  | _, _ => .error ()

/-- Elementwise `df[column] == v` (never raises; mixed types are unequal;
Python bools equal ints of the same value). -/
def cvEq : CV → Val → Bool
  | .num q, .int i => q == (i : ℚ)
  | .num q, .bool b => q == (if b then (1 : ℚ) else 0)
  | .strv s, .str t => s == t
  | _, _ => false

/-- Partition under a fallible elementwise predicate: any cell comparison
raising aborts the whole (vectorised) mask computation. -/
def partitionM (f : Rec → Except Unit Bool) : List Rec → Except Unit (List Rec × List Rec)
  | [] => .ok ([], [])
  | r :: rs => do
    let b ← f r
    let (k, d) ← partitionM f rs
    if b then .ok (r :: k, d) else .ok (k, r :: d)

/-- `_apply_custom_filter`: each `(column, condition)` entry in order
narrows the current kept set; removed rows accumulate in encounter
order. -/
def apply_custom_filter (df : Frame) (fl : FilterCriteria) :
    Except Unit (Frame × List Rec) := do
  let st ← fl.criteria.foldlM (fun (st : List Rec × List Rec) item => do
    let col := item.1
    if colPresent df.cols col then
      match item.2 with
      | .minmax lo hi => do
        let p ← partitionM (fun r => do
          let b1 ← cvGE (getCell r col) lo
          let b2 ← cvLE (getCell r col) hi
          pure (b1 && b2)) st.1
        pure (p.1, st.2 ++ p.2)
      | .values vs =>
        pure (st.1.filter (fun r => vs.any (cvEq (getCell r col))),
              st.2 ++ st.1.filter (fun r => !vs.any (cvEq (getCell r col))))
      | .scalar v =>
        pure (st.1.filter (fun r => cvEq (getCell r col) v),
              st.2 ++ st.1.filter (fun r => !cvEq (getCell r col) v))
      | .other => pure st
    else pure st) (df.rows, [])
  .ok ({ df with rows := st.1 }, st.2)

/-- Dispatch on `filter_type` inside `_apply_single_filter`, with the
stage body's possible exception surfaced as an `Except` value. -/
def single_filter_eval (df : Frame) (fl : FilterCriteria) :
    Except Unit (Frame × List Rec) :=
  match fl.filter_type with
  | .risk_based => apply_risk_based_filter df fl
  | .pattern_based => apply_pattern_based_filter df fl
  | .frequency_based => apply_frequency_based_filter df fl
  | .time_based => apply_time_based_filter df fl
  | .custom => apply_custom_filter df fl

/-- `_apply_single_filter`: the blanket `except` returns the stage's input
with an empty removed set (the per-stage handlers inside each
`_apply_*_filter` return the same). -/
def apply_single_filter (df : Frame) (fl : FilterCriteria) : Frame × List Rec :=
  match single_filter_eval df fl with
  | .ok p => p
  | .error _ => (df, [])

/-- The filtering system state that `apply_filters` consults: its filter
list (templates, noise config and weights are the fixed defaults). -/
structure FilterSystem where
  filters : List FilterCriteria

/-- The score-attachment step
`df['relevance_score'] = df.apply(lambda row: ..., axis=1)`: an in-place
mutation of the caller's frame. -/
def score_frame (df : Frame) (ctx : Option Ctx) : Frame :=
  { cols := { df.cols with hasScore := true },
    rows := df.rows.map (fun r =>
      { r with score := some (calculate_relevance_score df.cols r ctx) }) }

/-- The loop over `self.filters` in `apply_filters`: active filters apply
in list order to the current kept set; removed subsets concatenate. -/
def run_filters (filters : List FilterCriteria) (df : Frame) : Frame × List Rec :=
  filters.foldl (fun st fl =>
    if fl.is_active then
      let p := apply_single_filter st.1 fl
      (p.1, st.2 ++ p.2)
    else st) (df, [])

/-- `apply_filters`.  Returns (kept frame, removed rows, the caller's
frame after the call — made explicit because the score column is written
into the caller's object).  An empty input returns immediately. -/
def apply_filters (sys : FilterSystem) (df : Frame) (ctx : Option Ctx) :
    Frame × List Rec × Frame :=
  if df.rows.isEmpty then (df, [], df)
  else
    let scored := score_frame df ctx
    let clean := apply_noise_reduction scored
    let p := run_filters sys.filters clean
    ({ p.1 with rows := sort_values_desc sortKey p.1.rows }, p.2, scored)

/-! ## Text parsing (`IPDRAnalyzer._parse_text_file`) -/

/-- Raw cell of a just-parsed frame: a string, or an already structured
date-time. -/
inductive CellV where
  | s (v : String)
  | t (v : Timestamp)
deriving DecidableEq

/-- A just-parsed DataFrame: named columns and index-aligned rows. -/
structure RawFrame where
  cols : List String
  rows : List (List CellV)
deriving DecidableEq

/-- The `column_mapping` dict of `_normalize_columns`. -/
def column_mapping : List (String × String) :=
  [("calling_number", "a_party"), ("called_number", "b_party"),
   ("caller", "a_party"), ("callee", "b_party"),
   ("source_ip", "a_party"), ("dest_ip", "b_party"),
   ("call_duration", "duration"), ("session_duration", "duration"),
   ("call_time", "timestamp"), ("start_time", "timestamp")]

/-- The sequential in-place renames of `_normalize_columns` (no mapped
target name is itself a mapped source name, so the loop equals one pass
over the column list). -/
def renameCols (f : RawFrame) : RawFrame :=
  { f with cols := f.cols.map (fun c => (column_mapping.lookup c).getD c) }

/-- `pd.to_datetime` on one cell, parameterised by the timestamp parser
`p` (an unparseable string raises). -/
def coerceCell (p : String → Option Timestamp) : CellV → Except Unit CellV
  | .s v => match p v with
    | some t => .ok (.t t)
    | none => .error ()
  | .t v => .ok (.t v)

/-- Coerce the cell at index `i` of a row. -/
def coerceRow (p : String → Option Timestamp) : Nat → List CellV → Except Unit (List CellV)
  | _, [] => .ok []
  | 0, c :: cs => do
    let c2 ← coerceCell p c
    .ok (c2 :: cs)
  | n + 1, c :: cs => do
    let rest ← coerceRow p n cs
    .ok (c :: rest)

/-- `_normalize_columns`: rename, then coerce the `timestamp` column when
present; a coercion failure raises after the renames already mutated the
frame. -/
def normalize_columns (p : String → Option Timestamp) (f : RawFrame) :
    Except Unit RawFrame :=
  let f1 := renameCols f
  match f1.cols.findIdx? (· == "timestamp") with
  | none => .ok f1
  | some i => do
    let rows ← f1.rows.mapM (coerceRow p i)
    .ok { f1 with rows := rows }

/-- Outcome of reading the record source: unreadable/malformed input
raises inside `pd.read_csv`/`json.load`/`_parse_text_file`, or a frame is
produced. -/
inductive LoadInput where
  | unreadable
  | table (f : RawFrame)

/-- `parse_ipdr_file` as a transition on the analyzer's stored `self.data`
(`st`): the new state is returned with the success flag.  The source
assigns `self.data` before `_normalize_columns()` runs, so a
normalization failure leaves the renamed new frame behind; a read failure
leaves the previous state. -/
def parse_ipdr_file (p : String → Option Timestamp) (st : Option RawFrame)
    (inp : LoadInput) : Bool × Option RawFrame :=
  match inp with
  | .unreadable => (false, st)
  | .table f =>
    match normalize_columns p f with
    | .ok f2 => (true, some f2)
    | .error _ => (false, some (renameCols f))

/-! ## Relationship graph builder (`IPDRAnalyzer.extract_relationships`) -/

/-- An undirected networkx edge with its metadata.  `total_duration` is
`Option ℚ` because the running float total can be the NaN of a
present-but-NaN duration cell: `none` models NaN. -/
structure Edge where
  u : String
  v : String
  weight : Nat
  total_duration : Option ℚ
  first_contact : Option Timestamp
deriving DecidableEq

/-- `networkx.Graph.has_edge(a, b)` is order-insensitive. -/
def edgeMatches (e : Edge) (a b : String) : Bool :=
  (e.u == a && e.v == b) || (e.u == b && e.v == a)

/-- A record links identifiers `a` and `b` in either direction. -/
def linksParties (r : Rec) (a b : String) : Bool :=
  (r.a_party == a && r.b_party == b) || (r.a_party == b && r.b_party == a)

/-- Float addition with NaN propagation: adding NaN to anything — or
anything to NaN — is NaN. -/
def nanAdd : Option ℚ → Option ℚ → Option ℚ
  | some x, some y => some (x + y)
  | _, _ => none

/-- `row.get('duration', 0)`: the default 0 applies only when the
`duration` label is absent from the row's index (no such column); a
present-but-NaN cell is returned as the NaN itself. -/
def durCell (c : Cols) (r : Rec) : Option ℚ :=
  if c.hasDur then r.duration else some 0

/-- `row.get('timestamp')`: `None` when the column is absent, else the
cell (possibly NaT). -/
def tsCell (c : Cols) (r : Rec) : Option Timestamp :=
  if c.hasTs then r.timestamp else none

/-- One loop iteration of `extract_relationships`: bump the existing
undirected edge (`weight += 1`,
`total_duration += row.get('duration', 0)`) or create it with
`weight=1`, `total_duration=row.get('duration', 0)`,
`first_contact=row.get('timestamp')`. -/
def addRecord (c : Cols) (g : List Edge) (r : Rec) : List Edge :=
  if g.any (fun e => edgeMatches e r.a_party r.b_party) then
    g.map (fun e =>
      if edgeMatches e r.a_party r.b_party then
        { e with weight := e.weight + 1,
                 total_duration := nanAdd e.total_duration (durCell c r) }
      else e)
  else
    g ++ [{ u := r.a_party, v := r.b_party, weight := 1,
            total_duration := durCell c r, first_contact := tsCell c r }]

/-- `extract_relationships` over the loaded frame, starting from the
fresh empty graph of `__init__`. -/
def extract_relationships (f : Frame) : List Edge :=
  f.rows.foldl (addRecord f.cols) []

/-! ## Anomaly rule R2 (`detect_suspicious_activities`, duration block) -/

/-- A suspicious-activity finding; evidence rows carry the three columns
`[['a_party','b_party','duration']]` projected by the source. -/
structure Finding where
  ftype : String
  severity : String
  evidence : List (String × String × Option ℚ)
deriving DecidableEq

/-- `self.data[self.data['duration'] <= 5]` (NaN compares false). -/
def shortCalls (f : Frame) : List Rec :=
  f.rows.filter (fun r => match r.duration with
    | some d => decide (d ≤ 5)
    | none => false)

/-- Rule R2 of `detect_suspicious_activities`: guarded by the `duration`
column, fires when `len(short_calls) > len(self.data) * 0.1` (the float
literal 0.1 modelled as the rational 1/10). -/
def detect_short_duration (f : Frame) : Option Finding :=
  if f.cols.hasDur then
    if ((shortCalls f).length : ℚ) > (f.rows.length : ℚ) * (1/10) then
      some { ftype := "short_duration_pattern", severity := "high",
             evidence := ((shortCalls f).take 10).map
               (fun r => (r.a_party, r.b_party, r.duration)) }
    else none
  else none

/-! ## Concrete values used by witnesses and counterexamples -/

/-- Timestamp `t1` of the specification's graph example. -/
def ts1 : Timestamp := ⟨10, 2, 1⟩

/-- Timestamp `t2` of the specification's graph example. -/
def ts2 : Timestamp := ⟨11, 2, 2⟩

/-- Example record `(t1, "A", "B", 3, "VOICE")`. -/
def recAB3 : Rec := ⟨"A", "B", some ts1, some 3, some "VOICE", none⟩

/-- Example record `(t2, "A", "B", 400, "VOICE")`. -/
def recAB400 : Rec := ⟨"A", "B", some ts2, some 400, some "VOICE", none⟩

/-- Example record `(t2, "B", "A", 2, "VOICE")`. -/
def recBA2 : Rec := ⟨"B", "A", some ts2, some 2, some "VOICE", none⟩

/-- Two records that differ only in `a_party`, hence receive equal
relevance scores and survive noise reduction. -/
def recTieX : Rec := ⟨"501", "700", none, some 200, some "VOICE", none⟩

/-- Partner record of `recTieX` with a different initiator. -/
def recTieY : Rec := ⟨"502", "700", none, some 200, some "VOICE", none⟩

/-- A two-row frame of tied-score records (no timestamp column). -/
def tieFrame : Frame := ⟨⟨false, true, true, false⟩, [recTieX, recTieY]⟩

/-- A filtering system with an empty filter list. -/
def emptySystem : FilterSystem := ⟨[]⟩

/-- A concrete timestamp parser for witnesses: accepts the single
literal "5". -/
def natTsParse (s : String) : Option Timestamp :=
  if s = "5" then some ⟨5, 5, 5⟩ else none

/-- A raw frame whose `start_time` column holds an unparseable value. -/
def rawBad : RawFrame := ⟨["start_time", "caller", "callee"], [[.s "x", .s "A", .s "B"]]⟩

/-- A previously loaded frame standing for the analyzer state before a
failing load. -/
def rawPrev : RawFrame := ⟨["timestamp", "a_party", "b_party"], [[.t ⟨1, 1, 1⟩, .s "P", .s "Q"]]⟩

/-- An active risk-based filter whose `min_risk_score` is a string, so
that `criteria['min_risk_score'] / 100.0` raises `TypeError`. -/
def badRiskFilter : FilterCriteria :=
  ⟨"bad", .risk_based, [("min_risk_score", .scalar (.str "70"))], true⟩

/-- A scored one-row frame for exercising the failing filter stage. -/
def scoredOneRow : Frame :=
  ⟨⟨false, true, true, true⟩, [{ recTieX with score := some (1/4) }]⟩

/-! ## Claim theorems -/

/-- Claim C1: for every record and every caller-supplied context map
(including a missing context), `calculate_relevance_score` returns a
value in the closed interval `[0, 1]`. -/
theorem C1_relevance_score_in_unit_interval :
    ∀ (cols : Cols) (r : Rec) (ctx : Option Ctx),
      0 ≤ calculate_relevance_score cols r ctx ∧
        calculate_relevance_score cols r ctx ≤ 1 := by
  intro cols r ctx
  unfold calculate_relevance_score
  exact ⟨le_min (le_max_right _ _) zero_le_one, min_le_right _ _⟩

/-- Claim C9: a record whose only usable feature is a duration of 200
seconds (no timestamp, no service type, no context) scores exactly the
duration subscore 1 times the duration weight 0.15 = 0.15, with no
renormalization against the unused weights. -/
theorem C9_missing_features_no_renormalization :
    ∀ (cols : Cols) (r : Rec),
      cols.hasDur = true → r.duration = some 200 →
      r.timestamp = none → r.service_type = none →
      calculate_relevance_score cols r none =
        duration_score 200 * relevance_weights.duration ∧
      calculate_relevance_score cols r none = 15 / 100 := by
  intro cols r hdur hd hts hsvc
  obtain ⟨cts, cdur, csvc, csc⟩ := cols
  obtain ⟨a, b, rts, rdur, rsvc, rsc⟩ := r
  simp only at hdur hd hts hsvc
  subst hdur hd hts hsvc
  cases cts <;> cases csvc <;> cases csc <;>
    simp [calculate_relevance_score, raw_relevance_score, duration_score,
      relevance_weights] <;> norm_num

/-- Claim C9 witness at a concrete record. -/
theorem C9_missing_features_no_renormalization_witness :
    calculate_relevance_score ⟨false, true, false, false⟩
        ⟨"A", "B", none, some 200, none, none⟩ none = 15 / 100 :=
  (C9_missing_features_no_renormalization ⟨false, true, false, false⟩
    ⟨"A", "B", none, some 200, none, none⟩ rfl rfl rfl rfl).2

/-- Claim C6: if evaluating a single filter stage raises, the pipeline
catches it and the stage behaves as the identity — its kept output equals
its input, it contributes nothing to the removed collection, and the
pipeline continues as if the stage were absent. -/
theorem C6_filter_stage_fail_open :
    ∀ (df : Frame) (fl : FilterCriteria) (e : Unit),
      single_filter_eval df fl = .error e →
      apply_single_filter df fl = (df, []) ∧
        ∀ rest : List FilterCriteria,
          run_filters (fl :: rest) df = run_filters rest df := by
  intro df fl e h
  have hsingle : apply_single_filter df fl = (df, []) := by
    unfold apply_single_filter
    rw [h]
  refine ⟨hsingle, fun rest => ?_⟩
  unfold run_filters
  simp only [List.foldl_cons]
  by_cases hact : fl.is_active <;> simp [hact, hsingle]

/-- Claim C6 witness: a risk-based filter whose `min_risk_score` is a
string raises in `criteria['min_risk_score'] / 100.0`; the stage passes
its input through unchanged. -/
theorem C6_filter_stage_fail_open_witness :
    apply_single_filter scoredOneRow badRiskFilter = (scoredOneRow, []) ∧
      run_filters [badRiskFilter] scoredOneRow = run_filters [] scoredOneRow := by
  have h := C6_filter_stage_fail_open scoredOneRow badRiskFilter () rfl
  exact ⟨h.1, h.2 []⟩

/-- Claim C7 counterexample: loading a frame whose timestamp cannot be
coerced returns the failure signal, but the analyzer's stored record set
is NOT what it was before the call — `self.data` was already overwritten
with the renamed new frame when `pd.to_datetime` raised. -/
theorem C7_no_partial_state_counterexample :
    (parse_ipdr_file natTsParse (some rawPrev) (.table rawBad)).1 = false ∧
      (parse_ipdr_file natTsParse (some rawPrev) (.table rawBad)).2 ≠ some rawPrev := by
  constructor
  · rfl
  · decide

/-- Claim C7 amended: a failed load returns `False` instead of raising;
when the source itself is unreadable the prior state is kept, but when
normalization fails (uncoercible timestamp) the stored record set is
replaced by the newly parsed, column-renamed frame — partial state is
retained in that case. -/
theorem C7_load_failure_state :
    ∀ (p : String → Option Timestamp) (st : Option RawFrame),
      parse_ipdr_file p st .unreadable = (false, st) ∧
      (∀ f f2, normalize_columns p f = .ok f2 →
        parse_ipdr_file p st (.table f) = (true, some f2)) ∧
      (∀ f e, normalize_columns p f = .error e →
        parse_ipdr_file p st (.table f) = (false, some (renameCols f))) := by
  intro p st
  have key : ∀ f, parse_ipdr_file p st (.table f) =
      match normalize_columns p f with
      | .ok f2 => (true, some f2)
      | .error _ => (false, some (renameCols f)) := fun _ => rfl
  refine ⟨rfl, fun f f2 h => ?_, fun f e h => ?_⟩
  · rw [key, h]
  · rw [key, h]

/-- Claim C7 witness at a concrete failing load. -/
theorem C7_load_failure_state_witness :
    parse_ipdr_file natTsParse (some rawPrev) .unreadable = (false, some rawPrev) ∧
      parse_ipdr_file natTsParse (some rawPrev) (.table rawBad) =
        (false, some (renameCols rawBad)) :=
  ⟨(C7_load_failure_state natTsParse (some rawPrev)).1,
   (C7_load_failure_state natTsParse (some rawPrev)).2.2 rawBad () rfl⟩

/-- Map erasing the `relevance_score` cell, for comparing frames up to
the score column. -/
def clearScore (r : Rec) : Rec := { r with score := none }

/-- Claim C8 counterexample: `apply_filters` writes the
`relevance_score` column into the caller's frame in place
(`df['relevance_score'] = df.apply(...)`), so the collection the caller
passed in is not what it was before the call. -/
theorem C8_caller_frame_immutable_counterexample :
    (apply_filters emptySystem tieFrame none).2.2 ≠ tieFrame := by
  decide

/-- Claim C8 amended: `apply_filters` mutates the caller's frame only by
attaching the `relevance_score` column (on non-empty input); every other
field of every row, the row order, and the other column flags are
unchanged. -/
theorem C8_caller_frame_score_only_mutation :
    ∀ (sys : FilterSystem) (df : Frame) (ctx : Option Ctx),
      (apply_filters sys df ctx).2.2.rows.map clearScore = df.rows.map clearScore ∧
      ((apply_filters sys df ctx).2.2.cols = df.cols ∨
        (apply_filters sys df ctx).2.2.cols = { df.cols with hasScore := true }) := by
  intro sys df ctx
  unfold apply_filters
  by_cases hemp : df.rows.isEmpty
  · simp [hemp]
  · simp only [hemp, if_neg, Bool.false_eq_true, not_false_eq_true]
    constructor
    · simp [score_frame, clearScore, List.map_map, Function.comp]
    · right
      rfl

/-- A two-row frame with one short call, so that rule R2 fires. -/
def shortFrame : Frame :=
  ⟨⟨false, true, false, false⟩, [⟨"1", "2", none, some 3, none, none⟩, recTieX]⟩

/-- The finding rule R2 produces on `shortFrame`. -/
def shortFinding : Finding :=
  ⟨"short_duration_pattern", "high", [("1", "2", some 3)]⟩

/-- Claim C4: on a record set with a duration field, rule R2 fires iff
the number of records with duration at most 5 seconds strictly exceeds
0.1 times the total record count (stated integrally: 10 times the short
count exceeds the total); the finding has severity high and its evidence
is exactly the first 10 matching records (projected to the three columns
the source keeps). -/
theorem C4_short_duration_rule :
    ∀ f : Frame, f.cols.hasDur = true →
      ((detect_short_duration f).isSome ↔
        10 * (shortCalls f).length > f.rows.length) ∧
      ∀ fd, detect_short_duration f = some fd →
        fd.severity = "high" ∧ fd.ftype = "short_duration_pattern" ∧
        fd.evidence = ((shortCalls f).take 10).map
          (fun r => (r.a_party, r.b_party, r.duration)) := by
  intro f hdur
  have key : (((shortCalls f).length : ℚ) > (f.rows.length : ℚ) * (1/10)) ↔
      10 * (shortCalls f).length > f.rows.length := by
    rw [gt_iff_lt, gt_iff_lt, ← Nat.cast_lt (α := ℚ)]
    push_cast
    constructor <;> intro h <;> linarith
  unfold detect_short_duration
  rw [hdur]
  simp only [if_true]
  by_cases hq : ((shortCalls f).length : ℚ) > (f.rows.length : ℚ) * (1/10)
  · rw [if_pos hq]
    refine ⟨by simp [key.mp hq], fun fd hfd => ?_⟩
    obtain rfl : _ = fd := Option.some.inj hfd
    exact ⟨rfl, rfl, rfl⟩
  · rw [if_neg hq]
    refine ⟨?_, fun fd hfd => Option.noConfusion hfd⟩
    simp only [Option.isSome_none, Bool.false_eq_true, false_iff]
    rw [← key]
    exact hq

/-- Claim C4 witness: a concrete two-row frame with one three-second
call. -/
theorem C4_short_duration_rule_witness :
    (detect_short_duration shortFrame).isSome = true ∧
      shortFinding.severity = "high" ∧
      shortFinding.evidence = ((shortCalls shortFrame).take 10).map
        (fun r => (r.a_party, r.b_party, r.duration)) := by
  have h := C4_short_duration_rule shortFrame rfl
  exact ⟨h.1.mpr (by with_unfolding_all decide),
    (h.2 shortFinding (by with_unfolding_all decide)).1,
    (h.2 shortFinding (by with_unfolding_all decide)).2.2⟩

/-- Number of records whose party pair `{a_party, b_party}` equals
`{a, b}`. -/
def countLinks (rs : List Rec) (a b : String) : Nat :=
  (rs.filter (fun r => linksParties r a b)).length

/-- NaN-propagating sum of a list of float cells, with empty sum 0. -/
def nanSum (l : List (Option ℚ)) : Option ℚ :=
  l.foldr nanAdd (some 0)

/-- The NaN-propagating total of `row.get('duration', 0)` over the
records linking `a` and `b`: the value the program's running
`total_duration` accumulates. -/
def sumLinkDur (c : Cols) (rs : List Rec) (a b : String) : Option ℚ :=
  nanSum ((rs.filter (fun r => linksParties r a b)).map (durCell c))

/-- Edges of the graph incident to the unordered pair `{a, b}`. -/
def matchEdges (g : List Edge) (a b : String) : List Edge :=
  g.filter (fun e => edgeMatches e a b)

/-- Number of edges matching the pair `{a, b}`. -/
def matchCount (g : List Edge) (a b : String) : Nat :=
  (matchEdges g a b).length

/-- Total weight over the edges matching `{a, b}`. -/
def matchWeight (g : List Edge) (a b : String) : Nat :=
  ((matchEdges g a b).map Edge.weight).sum

/-- NaN-propagating total duration over the edges matching `{a, b}`. -/
def matchDur (g : List Edge) (a b : String) : Option ℚ :=
  nanSum ((matchEdges g a b).map Edge.total_duration)

theorem nanAdd_zero_right (x : Option ℚ) : nanAdd x (some 0) = x := by
  cases x <;> simp [nanAdd]

theorem nanAdd_zero_left (x : Option ℚ) : nanAdd (some 0) x = x := by
  cases x <;> simp [nanAdd]

theorem nanAdd_assoc (a b c : Option ℚ) :
    nanAdd (nanAdd a b) c = nanAdd a (nanAdd b c) := by
  cases a <;> cases b <;> cases c <;> simp [nanAdd, add_assoc]

theorem nanSum_all_some :
    ∀ l : List (Option ℚ), (∀ x ∈ l, x.isSome) →
      nanSum l = some ((l.map (fun x => x.getD 0)).sum) := by
  intro l
  induction l with
  | nil => intro _; rfl
  | cons x t ih =>
    intro h
    obtain ⟨v, rfl⟩ :=
      Option.isSome_iff_exists.mp (h x (List.mem_cons_self x t))
    show nanAdd (some v) (nanSum t) = _
    rw [ih (fun y hy => h y (List.mem_cons_of_mem _ hy))]
    simp [nanAdd]

theorem edgeMatches_swap (e : Edge) (a b : String) :
    edgeMatches e a b = edgeMatches e b a := by
  simp [edgeMatches, Bool.or_comm]

theorem edgeMatches_true {e : Edge} {a b : String} :
    edgeMatches e a b = true ↔ (e.u = a ∧ e.v = b) ∨ (e.u = b ∧ e.v = a) := by
  simp [edgeMatches]

theorem linksParties_true {r : Rec} {a b : String} :
    linksParties r a b = true ↔
      (r.a_party = a ∧ r.b_party = b) ∨ (r.a_party = b ∧ r.b_party = a) := by
  simp [linksParties]

theorem matches_congr_of_links (r : Rec) (a b : String)
    (h : linksParties r a b = true) (e : Edge) :
    edgeMatches e a b = edgeMatches e r.a_party r.b_party := by
  rcases linksParties_true.mp h with ⟨h1, h2⟩ | ⟨h1, h2⟩
  · rw [h1, h2]
  · rw [h1, h2, edgeMatches_swap]

theorem links_of_matches_both (r : Rec) (a b : String) (e : Edge)
    (h1 : edgeMatches e a b = true)
    (h2 : edgeMatches e r.a_party r.b_party = true) :
    linksParties r a b = true := by
  rw [edgeMatches_true] at h1 h2
  rw [linksParties_true]
  rcases h1 with ⟨x1, x2⟩ | ⟨x1, x2⟩ <;> rcases h2 with ⟨y1, y2⟩ | ⟨y1, y2⟩ <;>
    simp_all

theorem eq_singleton_of_length_le_one {α} {l : List α} {x : α}
    (h1 : l.length ≤ 1) (h2 : x ∈ l) : l = [x] := by
  cases l with
  | nil => exact absurd h2 (List.not_mem_nil x)
  | cons y t =>
    cases t with
    | nil =>
      obtain rfl := List.mem_singleton.mp h2
      rfl
    | cons z u =>
      exfalso
      simp [List.length_cons] at h1

/-- Invariant transported by one `addRecord` step: for a fixed unordered
pair, at most one edge matches, the matched weight grows by one exactly
when the record links the pair, the matched NaN-propagating duration
absorbs the record's `row.get('duration', 0)` cell, and a matching edge
exists afterwards iff one existed before or the record links the pair. -/
theorem addRecord_step (c : Cols) (g : List Edge) (r : Rec) (a b : String)
    (hU : matchCount g a b ≤ 1) :
    matchCount (addRecord c g r) a b ≤ 1 ∧
    matchWeight (addRecord c g r) a b =
      matchWeight g a b + (if linksParties r a b then 1 else 0) ∧
    matchDur (addRecord c g r) a b =
      (if linksParties r a b then nanAdd (matchDur g a b) (durCell c r)
       else matchDur g a b) ∧
    (0 < matchCount (addRecord c g r) a b ↔
      0 < matchCount g a b ∨ linksParties r a b = true) := by
  by_cases hg : g.any (fun e => edgeMatches e r.a_party r.b_party)
  · -- the update path: the matching edge is bumped in place
    set upd := fun e : Edge => if edgeMatches e r.a_party r.b_party then
      { e with weight := e.weight + 1,
               total_duration := nanAdd e.total_duration (durCell c r) }
      else e with hupd
    have hadd : addRecord c g r = g.map upd := by
      unfold addRecord
      rw [if_pos hg]
    have hum : ∀ e, edgeMatches (upd e) a b = edgeMatches e a b := by
      intro e
      simp only [hupd]
      split <;> rfl
    have hfil : matchEdges (addRecord c g r) a b = (matchEdges g a b).map upd := by
      rw [hadd]
      unfold matchEdges
      rw [List.filter_map]
      congr 1
      exact List.filter_congr (fun e _ => hum e)
    have hcnt : matchCount (addRecord c g r) a b = matchCount g a b := by
      unfold matchCount
      rw [hfil, List.length_map]
    by_cases hL : linksParties r a b
    · -- the record links {a,b}: the unique matching edge is bumped
      have hex : ∃ e ∈ g, edgeMatches e r.a_party r.b_party = true := by
        simpa using hg
      obtain ⟨e₀, he₀g, he₀m⟩ := hex
      have he₀ab : edgeMatches e₀ a b = true := by
        rw [matches_congr_of_links r a b hL]
        exact he₀m
      have he₀fil : e₀ ∈ matchEdges g a b := List.mem_filter.mpr ⟨he₀g, he₀ab⟩
      have hsing : matchEdges g a b = [e₀] :=
        eq_singleton_of_length_le_one hU he₀fil
      have hbump : upd e₀ =
          { e₀ with weight := e₀.weight + 1,
                    total_duration := nanAdd e₀.total_duration (durCell c r) } := by
        simp [hupd, he₀m]
      refine ⟨by rw [hcnt]; exact hU, ?_, ?_, ?_⟩
      · unfold matchWeight
        rw [hfil, hsing, if_pos hL]
        simp [hbump]
      · unfold matchDur
        rw [if_pos hL, hfil, hsing]
        simp [hbump, nanSum, nanAdd_zero_right]
      · rw [hcnt]
        exact ⟨Or.inl, fun _ => by
          unfold matchCount
          rw [hsing]
          simp⟩
    · -- the record does not link {a,b}: matched edges untouched
      have hid : (matchEdges g a b).map upd = matchEdges g a b := by
        have h1 : ∀ e ∈ matchEdges g a b, upd e = id e := by
          intro e he
          have hm := (List.mem_filter.mp he).2
          by_cases hm2 : edgeMatches e r.a_party r.b_party
          · exact absurd (links_of_matches_both r a b e hm hm2)
              (by simpa using hL)
          · simp [hupd, hm2]
        rw [List.map_congr_left h1, List.map_id]
      have hfil2 : matchEdges (addRecord c g r) a b = matchEdges g a b := by
        rw [hfil, hid]
      refine ⟨?_, ?_, ?_, ?_⟩
      · unfold matchCount
        rw [hfil2]
        exact hU
      · unfold matchWeight
        rw [hfil2, if_neg hL, add_zero]
      · unfold matchDur
        rw [if_neg hL, hfil2]
      · unfold matchCount
        rw [hfil2]
        simp [hL]
  · -- the append path: a new edge is created for the record's pair
    set nE : Edge :=
      { u := r.a_party, v := r.b_party, weight := 1,
        total_duration := durCell c r, first_contact := tsCell c r } with hnE
    have hadd : addRecord c g r = g ++ [nE] := by
      unfold addRecord
      rw [if_neg hg]
    have hnew : edgeMatches nE a b = linksParties r a b := rfl
    have hnone : ∀ e ∈ g, ¬ edgeMatches e r.a_party r.b_party = true := by
      intro e he hm
      exact hg (List.any_eq_true.mpr ⟨e, he, hm⟩)
    have hfil : matchEdges (addRecord c g r) a b =
        matchEdges g a b ++ (if linksParties r a b then [nE] else []) := by
      rw [hadd]
      unfold matchEdges
      rw [List.filter_append]
      congr 1
      by_cases hL : linksParties r a b
      · simp [hnew, hL]
      · simp [hnew, hL]
    by_cases hL : linksParties r a b
    · -- new edge for {a,b}: no old edge could match this pair
      have hzero : matchEdges g a b = [] := by
        by_contra hne
        obtain ⟨e₀, he₀⟩ := List.exists_mem_of_ne_nil _ hne
        have hmem := List.mem_filter.mp he₀
        have hm2 : edgeMatches e₀ r.a_party r.b_party = true := by
          rw [← matches_congr_of_links r a b hL]
          exact hmem.2
        exact hnone e₀ hmem.1 hm2
      refine ⟨?_, ?_, ?_, ?_⟩
      · unfold matchCount
        rw [hfil, hzero]
        simp [hL]
      · unfold matchWeight
        rw [hfil, hzero, if_pos hL]
        simp [hL]
      · unfold matchDur
        rw [hfil, hzero]
        simp [hL, hnE, nanSum, nanAdd_zero_right, nanAdd_zero_left]
      · unfold matchCount
        rw [hfil, hzero]
        simp [hL]
    · -- the new edge is for a different pair: nothing changes at {a,b}
      have hfil2 : matchEdges (addRecord c g r) a b = matchEdges g a b := by
        rw [hfil, if_neg hL, List.append_nil]
      refine ⟨?_, ?_, ?_, ?_⟩
      · unfold matchCount
        rw [hfil2]
        exact hU
      · unfold matchWeight
        rw [hfil2, if_neg hL, add_zero]
      · unfold matchDur
        rw [if_neg hL, hfil2]
      · unfold matchCount
        rw [hfil2]
        simp [hL]

/-- The fold invariant over the record list. -/
theorem extract_loop (c : Cols) (rs : List Rec) :
    ∀ (g : List Edge) (a b : String), matchCount g a b ≤ 1 →
      matchCount (rs.foldl (addRecord c) g) a b ≤ 1 ∧
      matchWeight (rs.foldl (addRecord c) g) a b =
        matchWeight g a b + countLinks rs a b ∧
      matchDur (rs.foldl (addRecord c) g) a b =
        nanAdd (matchDur g a b) (sumLinkDur c rs a b) ∧
      (0 < matchCount (rs.foldl (addRecord c) g) a b ↔
        0 < matchCount g a b ∨ ∃ r ∈ rs, linksParties r a b = true) := by
  induction rs with
  | nil =>
    intro g a b hU
    simp only [List.foldl_nil]
    refine ⟨hU, ?_, ?_, by simp⟩
    · simp [countLinks]
    · show matchDur g a b = nanAdd (matchDur g a b) (sumLinkDur c [] a b)
      rw [show sumLinkDur c [] a b = some 0 from rfl]
      exact (nanAdd_zero_right _).symm
  | cons r rs ih =>
    intro g a b hU
    rw [List.foldl_cons]
    obtain ⟨h1, h2, h3, h4⟩ := addRecord_step c g r a b hU
    obtain ⟨k1, k2, k3, k4⟩ := ih (addRecord c g r) a b h1
    refine ⟨k1, ?_, ?_, ?_⟩
    · rw [k2, h2]
      unfold countLinks
      rw [List.filter_cons]
      by_cases hL : linksParties r a b <;> simp [hL] <;> omega
    · rw [k3, h3]
      by_cases hL : linksParties r a b
      · rw [if_pos hL]
        have hS : sumLinkDur c (r :: rs) a b =
            nanAdd (durCell c r) (sumLinkDur c rs a b) := by
          unfold sumLinkDur
          rw [List.filter_cons, if_pos hL]
          rfl
        rw [hS, nanAdd_assoc]
      · rw [if_neg hL]
        have hS : sumLinkDur c (r :: rs) a b = sumLinkDur c rs a b := by
          unfold sumLinkDur
          rw [List.filter_cons, if_neg hL]
        rw [hS]
    · rw [k4, h4]
      simp only [List.mem_cons]
      constructor
      · rintro ((hc | hr) | ⟨x, hx, hpx⟩)
        · exact Or.inl hc
        · exact Or.inr ⟨r, Or.inl rfl, hr⟩
        · exact Or.inr ⟨x, Or.inr hx, hpx⟩
      · rintro (hc | ⟨x, (rfl | hx), hpx⟩)
        · exact Or.inl (Or.inl hc)
        · exact Or.inl (Or.inr hpx)
        · exact Or.inr ⟨x, hx, hpx⟩

/-- The frame of the specification's three-record graph example. -/
def exFrame : Frame := ⟨⟨true, true, true, false⟩, [recAB3, recAB400, recBA2]⟩

/-- A record linking A and B whose duration cell is NaN. -/
def recABnan : Rec := ⟨"A", "B", some ts2, none, some "VOICE", none⟩

/-- A frame with a duration column in which one A-B record's duration is
NaN. -/
def nanFrame : Frame := ⟨⟨true, true, true, false⟩, [recAB3, recABnan]⟩

/-- Claim C2 counterexample: with the duration column present, a NaN
duration cell poisons the edge total — `row.get('duration', 0)` returns
the NaN itself (the default 0 applies only to an absent column), so the
A-B edge built from records of durations 3 and NaN carries
`total_duration = NaN`, not the sum of the records' durations (3, with
a missing duration contributing 0). -/
theorem C2_relationship_graph_counterexample :
    extract_relationships nanFrame = [⟨"A", "B", 2, none, some ts1⟩] ∧
    (none : Option ℚ) ≠
      some (((nanFrame.rows.filter (fun r => linksParties r "A" "B")).map
        (fun r => r.duration.getD 0)).sum) := by
  constructor
  · with_unfolding_all rfl
  · with_unfolding_all decide

/-- Claim C2 amended: after the relationship-graph builder runs over a
loaded frame, an edge matching the unordered pair `{a,b}` exists iff
some record links `a` and `b` in either direction; the matching edge is
unique and its weight equals the count of records whose party set equals
`{a,b}` — all as claimed.  Its `total_duration` is the NaN-propagating
total of `row.get('duration', 0)` over those records: equal to the sum
of their duration cells whenever every linked record's cell is non-NaN
(an absent duration column contributes 0 per record), and NaN when the
duration column is present and some linked record's duration is NaN.
The three example records produce the single edge A-B with weight 3 and
total duration 405. -/
theorem C2_relationship_graph_amended :
    (∀ (f : Frame) (a b : String),
      ((∃ e ∈ extract_relationships f, edgeMatches e a b = true) ↔
        ∃ r ∈ f.rows, linksParties r a b = true) ∧
      matchCount (extract_relationships f) a b ≤ 1 ∧
      (∀ e ∈ extract_relationships f, edgeMatches e a b = true →
        e.weight = countLinks f.rows a b ∧
        e.total_duration = sumLinkDur f.cols f.rows a b ∧
        ((∀ r ∈ f.rows.filter (fun r => linksParties r a b),
            (durCell f.cols r).isSome) →
          e.total_duration =
            some (((f.rows.filter (fun r => linksParties r a b)).map
              (fun r => (durCell f.cols r).getD 0)).sum)))) ∧
    extract_relationships exFrame = [⟨"A", "B", 3, some 405, some ts1⟩] := by
  constructor
  · intro f a b
    have h0 : matchCount ([] : List Edge) a b ≤ 1 := by
      simp [matchCount, matchEdges]
    obtain ⟨h1, h2, h3, h4⟩ := extract_loop f.cols f.rows [] a b h0
    have hW0 : matchWeight ([] : List Edge) a b = 0 := rfl
    have hD0 : matchDur ([] : List Edge) a b = some 0 := rfl
    have hC0 : matchCount ([] : List Edge) a b = 0 := rfl
    refine ⟨?_, h1, ?_⟩
    · constructor
      · rintro ⟨e, heG, hm⟩
        have hefil : e ∈ matchEdges (extract_relationships f) a b :=
          List.mem_filter.mpr ⟨heG, hm⟩
        have hpos : 0 < matchCount (extract_relationships f) a b :=
          List.length_pos.mpr (List.ne_nil_of_mem hefil)
        rcases h4.mp hpos with hc | hr
        · rw [hC0] at hc
          exact absurd hc (lt_irrefl 0)
        · exact hr
      · intro hr
        have hpos := h4.mpr (Or.inr hr)
        obtain ⟨e, hefil⟩ :=
          List.exists_mem_of_ne_nil _ (List.length_pos.mp hpos)
        have hmem := List.mem_filter.mp hefil
        exact ⟨e, hmem.1, hmem.2⟩
    · intro e heG hm
      have hefil : e ∈ matchEdges (extract_relationships f) a b :=
        List.mem_filter.mpr ⟨heG, hm⟩
      have hsing : matchEdges (f.rows.foldl (addRecord f.cols) []) a b = [e] :=
        eq_singleton_of_length_le_one h1 hefil
      have hw := h2
      rw [hW0, Nat.zero_add] at hw
      unfold matchWeight at hw
      rw [hsing] at hw
      have hd := h3
      rw [hD0, nanAdd_zero_left] at hd
      unfold matchDur at hd
      rw [hsing] at hd
      simp only [List.map_cons, List.map_nil] at hw hd
      rw [show nanSum [e.total_duration] = e.total_duration from
        nanAdd_zero_right _] at hd
      refine ⟨by simpa using hw, hd, ?_⟩
      intro hall
      rw [hd]
      unfold sumLinkDur
      rw [nanSum_all_some _ ?allsome]
      · rw [List.map_map]
        rfl
      case allsome =>
        intro x hx
        obtain ⟨r, hr, rfl⟩ := List.mem_map.mp hx
        exact hall r hr
  · with_unfolding_all rfl

/-- Claim C2 amended witness: the example edge's weight and
NaN-propagating duration total against the record counts, at the pair
("A", "B"). -/
theorem C2_relationship_graph_amended_witness :
    Edge.weight ⟨"A", "B", 3, some 405, some ts1⟩ =
        countLinks exFrame.rows "A" "B" ∧
      Edge.total_duration ⟨"A", "B", 3, some 405, some ts1⟩ =
        sumLinkDur exFrame.cols exFrame.rows "A" "B" := by
  have h := (C2_relationship_graph_amended.1 exFrame "A" "B").2.2
    ⟨"A", "B", 3, some 405, some ts1⟩
    (by rw [C2_relationship_graph_amended.2]; exact List.mem_singleton.mpr rfl)
    (by decide)
  exact ⟨h.1, h.2.1⟩

/-! ## Lemmas for noise-reduction idempotence -/

/-- The deduplication key tuple type. -/
abbrev DKey :=
  String × String × Option (Option Timestamp) × Option (Option ℚ) × Option (Option String)

theorem chainFilter_sublist (ps : List (Rec → Bool)) :
    ∀ l, List.Sublist (chainFilter ps l) l := by
  induction ps with
  | nil => intro l; exact List.Sublist.refl l
  | cons p ps ih =>
    intro l
    exact (ih (l.filter p)).trans (List.filter_sublist l)

theorem chainFilter_pred (ps : List (Rec → Bool)) :
    ∀ l r, r ∈ chainFilter ps l → ∀ p ∈ ps, p r = true := by
  induction ps with
  | nil =>
    intro l r _ p hp
    exact absurd hp (List.not_mem_nil p)
  | cons q ps ih =>
    intro l r hr p hp
    rcases List.mem_cons.mp hp with rfl | hp2
    · have hr2 : r ∈ l.filter p := (chainFilter_sublist ps (l.filter p)).subset hr
      exact (List.mem_filter.mp hr2).2
    · exact ih (l.filter q) r hr p hp2

theorem chainFilter_eq_self (ps : List (Rec → Bool)) :
    ∀ l, (∀ r ∈ l, ∀ p ∈ ps, p r = true) → chainFilter ps l = l := by
  induction ps with
  | nil => intro l _; rfl
  | cons q ps ih =>
    intro l h
    have hfq : l.filter q = l :=
      List.filter_eq_self.mpr (fun r hr => h r hr q (List.mem_cons_self q ps))
    show chainFilter ps (l.filter q) = l
    rw [hfq]
    exact ih l (fun r hr p hp => h r hr p (List.mem_cons_of_mem q hp))

theorem dropDupsAux_sublist (c : Cols) :
    ∀ (l : List Rec) (seen : List DKey), List.Sublist (dropDupsAux c seen l) l := by
  intro l
  induction l with
  | nil => intro seen; exact List.Sublist.refl []
  | cons r rs ih =>
    intro seen
    unfold dropDupsAux
    by_cases h : dedupKey c r ∈ seen
    · rw [if_pos h]
      exact (ih seen).trans (List.sublist_cons_self r rs)
    · rw [if_neg h]
      exact List.Sublist.cons₂ r (ih _)

theorem dropDupsAux_keys (c : Cols) :
    ∀ (l : List Rec) (seen : List DKey),
      ((dropDupsAux c seen l).map (dedupKey c)).Nodup ∧
      ∀ k ∈ (dropDupsAux c seen l).map (dedupKey c), k ∉ seen := by
  intro l
  induction l with
  | nil =>
    intro seen
    exact ⟨List.nodup_nil, by simp [dropDupsAux]⟩
  | cons r rs ih =>
    intro seen
    unfold dropDupsAux
    by_cases h : dedupKey c r ∈ seen
    · rw [if_pos h]
      exact ih seen
    · rw [if_neg h]
      obtain ⟨ih1, ih2⟩ := ih (dedupKey c r :: seen)
      simp only [List.map_cons]
      constructor
      · rw [List.nodup_cons]
        exact ⟨fun hmem => (ih2 _ hmem) (List.mem_cons_self _ _), ih1⟩
      · intro k hk
        rcases List.mem_cons.mp hk with rfl | hk2
        · exact h
        · exact fun hks => (ih2 k hk2) (List.mem_cons_of_mem _ hks)

theorem dropDupsAux_eq_self (c : Cols) :
    ∀ (l : List Rec) (seen : List DKey),
      (l.map (dedupKey c)).Nodup →
      (∀ k ∈ l.map (dedupKey c), k ∉ seen) →
      dropDupsAux c seen l = l := by
  intro l
  induction l with
  | nil => intro seen _ _; rfl
  | cons r rs ih =>
    intro seen hnd hdisj
    rw [List.map_cons, List.nodup_cons] at hnd
    unfold dropDupsAux
    rw [if_neg (hdisj _ (by simp))]
    congr 1
    apply ih
    · exact hnd.2
    · intro k hk hks
      rcases List.mem_cons.mp hks with heq | hk2
      · exact hnd.1 (heq ▸ hk)
      · exact (hdisj k (by rw [List.map_cons]; exact List.mem_cons_of_mem _ hk)) hk2

theorem remove_duplicates_sublist (c : Cols) (l : List Rec) :
    List.Sublist (remove_duplicates c l) l :=
  dropDupsAux_sublist c l []

theorem remove_duplicates_keys_nodup (c : Cols) (l : List Rec) :
    ((remove_duplicates c l).map (dedupKey c)).Nodup :=
  (dropDupsAux_keys c l []).1

theorem remove_duplicates_eq_self (c : Cols) (l : List Rec)
    (h : (l.map (dedupKey c)).Nodup) : remove_duplicates c l = l :=
  dropDupsAux_eq_self c l [] h (by simp)

/-- Claim C5: the noise reducer is idempotent — running
`_apply_noise_reduction` on its own output removes nothing further. -/
theorem C5_noise_reduction_idempotent :
    ∀ f : Frame,
      apply_noise_reduction (apply_noise_reduction f) = apply_noise_reduction f := by
  intro f
  obtain ⟨c, rows⟩ := f
  set D := remove_duplicates c rows with hD
  set A1 := if c.hasDur then D.filter durOK else D with hA1
  set A2 := if c.hasSvc then A1.filter svcOK else A1 with hA2
  set A3 := remove_noise_patterns A2 with hA3
  set O := apply_geographic_filters A3 with hO
  have hA1sub : List.Sublist A1 D := by
    rw [hA1]
    split
    · exact List.filter_sublist D
    · exact List.Sublist.refl D
  have hA2sub : List.Sublist A2 A1 := by
    rw [hA2]
    split
    · exact List.filter_sublist A1
    · exact List.Sublist.refl A1
  have hA3sub : List.Sublist A3 A2 := by
    rw [hA3]
    exact chainFilter_sublist noisePreds A2
  have hOsub : List.Sublist O A3 := by
    rw [hO]
    exact List.filter_sublist A3
  have hOD : List.Sublist O D := hOsub.trans (hA3sub.trans (hA2sub.trans hA1sub))
  have hnodup : (O.map (dedupKey c)).Nodup :=
    List.Nodup.sublist (List.Sublist.map (dedupKey c) hOD)
      (remove_duplicates_keys_nodup c rows)
  have hdur : c.hasDur = true → ∀ r ∈ O, durOK r = true := by
    intro hflag r hr
    have hrA1 : r ∈ A1 := (hOsub.trans (hA3sub.trans hA2sub)).subset hr
    rw [hA1, if_pos hflag] at hrA1
    exact (List.mem_filter.mp hrA1).2
  have hsvc : c.hasSvc = true → ∀ r ∈ O, svcOK r = true := by
    intro hflag r hr
    have hrA2 : r ∈ A2 := (hOsub.trans hA3sub).subset hr
    rw [hA2, if_pos hflag] at hrA2
    exact (List.mem_filter.mp hrA2).2
  have hnoise : ∀ r ∈ O, ∀ p ∈ noisePreds, p r = true := by
    intro r hr
    have hrA3 : r ∈ A3 := hOsub.subset hr
    rw [hA3] at hrA3
    exact chainFilter_pred noisePreds A2 r hrA3
  have hgeo : ∀ r ∈ O, geoOK r = true := by
    intro r hr
    rw [hO] at hr
    exact (List.mem_filter.mp hr).2
  have hstep0 : remove_duplicates c O = O := remove_duplicates_eq_self c O hnodup
  have hstep1 : (if c.hasDur then O.filter durOK else O) = O := by
    by_cases hflag : c.hasDur = true
    · rw [if_pos hflag]
      exact List.filter_eq_self.mpr (hdur hflag)
    · rw [if_neg hflag]
  have hstep2 : (if c.hasSvc then O.filter svcOK else O) = O := by
    by_cases hflag : c.hasSvc = true
    · rw [if_pos hflag]
      exact List.filter_eq_self.mpr (hsvc hflag)
    · rw [if_neg hflag]
  have hstep3 : remove_noise_patterns O = O := chainFilter_eq_self noisePreds O hnoise
  have hstep4 : apply_geographic_filters O = O := List.filter_eq_self.mpr hgeo
  have h1 : apply_noise_reduction ⟨c, rows⟩ = ⟨c, O⟩ := rfl
  have h2 : apply_noise_reduction ⟨c, O⟩ =
      ⟨c, apply_geographic_filters (remove_noise_patterns
        (if c.hasSvc then
          (if c.hasDur then (remove_duplicates c O).filter durOK
           else remove_duplicates c O).filter svcOK
         else (if c.hasDur then (remove_duplicates c O).filter durOK
           else remove_duplicates c O)))⟩ := rfl
  rw [h1, h2, hstep0, hstep1, hstep2, hstep3, hstep4]

/-! ## Lemmas for the filter-pipeline sorting claim -/

theorem insertAsc_perm (key : Rec → ℚ) (r : Rec) :
    ∀ l, List.Perm (insertAsc key r l) (r :: l) := by
  intro l
  induction l with
  | nil => exact List.Perm.refl [r]
  | cons x xs ih =>
    unfold insertAsc
    by_cases h : key r ≤ key x
    · rw [if_pos h]
    · rw [if_neg h]
      exact (List.Perm.cons x ih).trans (List.Perm.swap r x xs)

theorem sortAscBy_perm (key : Rec → ℚ) :
    ∀ l, List.Perm (sortAscBy key l) l := by
  intro l
  induction l with
  | nil => exact List.Perm.refl []
  | cons r rs ih =>
    exact (insertAsc_perm key r (sortAscBy key rs)).trans (List.Perm.cons r ih)

theorem insertAsc_pairwise (key : Rec → ℚ) (r : Rec) :
    ∀ l, l.Pairwise (fun a b => key a ≤ key b) →
      (insertAsc key r l).Pairwise (fun a b => key a ≤ key b) := by
  intro l
  induction l with
  | nil =>
    intro _
    simp [insertAsc]
  | cons x xs ih =>
    intro hp
    rw [List.pairwise_cons] at hp
    obtain ⟨hx, hxs⟩ := hp
    unfold insertAsc
    by_cases h : key r ≤ key x
    · rw [if_pos h, List.pairwise_cons]
      constructor
      · intro y hy
        rcases List.mem_cons.mp hy with rfl | hy2
        · exact h
        · exact le_trans h (hx y hy2)
      · rw [List.pairwise_cons]
        exact ⟨hx, hxs⟩
    · rw [if_neg h, List.pairwise_cons]
      constructor
      · intro y hy
        rcases List.mem_cons.mp
            (((insertAsc_perm key r xs).mem_iff).mp hy) with rfl | hy2
        · exact le_of_not_le h
        · exact hx y hy2
      · exact ih hxs

theorem sortAscBy_pairwise (key : Rec → ℚ) :
    ∀ l, (sortAscBy key l).Pairwise (fun a b => key a ≤ key b) := by
  intro l
  induction l with
  | nil => exact List.Pairwise.nil
  | cons r rs ih => exact insertAsc_pairwise key r (sortAscBy key rs) ih

theorem run_filters_inactive :
    ∀ (filters : List FilterCriteria) (df : Frame),
      (∀ fl ∈ filters, fl.is_active = false) →
      run_filters filters df = (df, []) := by
  intro filters
  induction filters with
  | nil => intro df _; rfl
  | cons fl fls ih =>
    intro df h
    have hfl : fl.is_active = false := h fl (List.mem_cons_self _ _)
    unfold run_filters
    rw [List.foldl_cons]
    simp only [hfl, Bool.false_eq_true, if_false]
    have := ih df (fun g hg => h g (List.mem_cons_of_mem _ hg))
    unfold run_filters at this
    exact this

/-- Modelled from the spec's words for claim C3 only (the stability the
claim asserts): a descending sort in which records with equal scores
preserve their prior relative order. -/
def insertDescStable (key : Rec → ℚ) (r : Rec) : List Rec → List Rec
  | [] => [r]
  | x :: xs => if key x ≤ key r then r :: x :: xs else x :: insertDescStable key r xs

/-- Modelled from the spec's words for claim C3 only: stable descending
insertion sort. -/
def sortDescStable (key : Rec → ℚ) : List Rec → List Rec
  | [] => []
  | r :: rs => insertDescStable key r (sortDescStable key rs)

set_option maxHeartbeats 2000000 in
/-- Claim C3 counterexample: with no active filters, on a two-row frame
of equal-score records the kept set is NOT the stable descending order of
the noise-reduced records — pandas reverses the ascending argsort for
`ascending=False`, so tied records come out in reversed prior order. -/
theorem C3_no_filters_stable_sort_counterexample :
    (apply_filters emptySystem tieFrame none).2.1 = [] ∧
    (apply_filters emptySystem tieFrame none).1.rows ≠
      sortDescStable sortKey
        (apply_noise_reduction (score_frame tieFrame none)).rows := by
  constructor
  · with_unfolding_all rfl
  · with_unfolding_all decide

set_option maxHeartbeats 2000000 in
/-- Claim C3 amended: with no active filters, `apply_filters` on a
non-empty record set returns an empty removed collection and a kept
collection that is a permutation of the noise-reduced scored records,
ordered by relevance score non-increasingly; ties do NOT preserve their
prior relative order (for frames of at most 15 rows they come out
reversed). -/
theorem C3_no_filters_sorted_amended :
    ∀ (sys : FilterSystem) (df : Frame) (ctx : Option Ctx),
      (∀ fl ∈ sys.filters, fl.is_active = false) → df.rows ≠ [] →
      (apply_filters sys df ctx).2.1 = [] ∧
      List.Perm (apply_filters sys df ctx).1.rows
        (apply_noise_reduction (score_frame df ctx)).rows ∧
      (apply_filters sys df ctx).1.rows.Pairwise
        (fun x y => sortKey y ≤ sortKey x) ∧
      (apply_filters sys df ctx).1.cols =
        (apply_noise_reduction (score_frame df ctx)).cols := by
  intro sys df ctx hinact hne
  have hemp : df.rows.isEmpty = false := by
    rw [Bool.eq_false_iff]
    exact fun h => hne (List.isEmpty_iff.mp h)
  have hrun := run_filters_inactive sys.filters
    (apply_noise_reduction (score_frame df ctx)) hinact
  have happ : apply_filters sys df ctx =
      ({ apply_noise_reduction (score_frame df ctx) with
          rows := sort_values_desc sortKey
            (apply_noise_reduction (score_frame df ctx)).rows },
        [], score_frame df ctx) := by
    unfold apply_filters
    simp only [hemp, Bool.false_eq_true, if_false, hrun]
  rw [happ]
  refine ⟨rfl, ?_, ?_, rfl⟩
  · show List.Perm (sort_values_desc sortKey
      (apply_noise_reduction (score_frame df ctx)).rows) _
    unfold sort_values_desc
    exact (List.reverse_perm _).trans (sortAscBy_perm sortKey _)
  · show ((sort_values_desc sortKey
      (apply_noise_reduction (score_frame df ctx)).rows).Pairwise _)
    unfold sort_values_desc
    rw [List.pairwise_reverse]
    exact sortAscBy_pairwise sortKey _

/-- Claim C3 witness for the amended statement, at the concrete two-row
tied frame with no filters. -/
theorem C3_no_filters_sorted_amended_witness :
    (apply_filters emptySystem tieFrame none).2.1 = [] ∧
    List.Perm (apply_filters emptySystem tieFrame none).1.rows
      (apply_noise_reduction (score_frame tieFrame none)).rows ∧
    (apply_filters emptySystem tieFrame none).1.rows.Pairwise
      (fun x y => sortKey y ≤ sortKey x) ∧
    (apply_filters emptySystem tieFrame none).1.cols =
      (apply_noise_reduction (score_frame tieFrame none)).cols :=
  C3_no_filters_sorted_amended emptySystem tieFrame none
    (by decide) (by decide)

end IPDR
